import Mathlib

/-!
Shallow embedding of the retrieval ranking pipeline of `llm_search.py`
(`extract_search_keywords` and `PineconeRAG.search` with its four stages:
auto-filter extraction, wide retrieval, lexical re-ranking, diversity
selection).  Python floats are modelled as exact rationals, Python
exceptions as `Except`, and the heterogeneous year keys of the grouping
dictionary as an explicit sum of integers and strings, mirroring Python's
dynamic typing (Python raises `TypeError` when `sorted` has to compare an
`int`/`float` with a `str`).
-/

/-- Python value used as a year key: either a number or a string.
`sorted` over a mix of the two raises `TypeError` in Python. -/
inductive PyKey where
  | int (n : Int)
  | str (s : String)
deriving DecidableEq, Repr

/-- Errors the pipeline can raise: an embedding-client failure
(`get_embedding` has no try/except around it in `search`) or the
`TypeError` raised by `sorted` on heterogeneous keys. -/
inductive PyErr where
  | embedErr (msg : String)
  | typeErr
deriving DecidableEq, Repr

/-- One retrieved candidate record, flattening the `metadata` mapping used by
the pipeline (`title`, `text`, `year`; a missing `year` key is `none`,
matching `metadata.get("year", "Unknown")`).  `score` is the Python float
modelled exactly; `km` is the `keyword_matches` field written by the
re-ranker. -/
structure Doc where
  id : String
  score : ℚ
  ns : String := ""
  title : String := ""
  text : String := ""
  year : Option PyKey := none
  km : Int := 0
deriving DecidableEq, Repr

/-- The optional `year` / `dept` entries of the `filters` dict. -/
structure Filters where
  year : Option Int := none
  dept : Option String := none
deriving DecidableEq, Repr

/-! ### Keyword Extractor (`extract_search_keywords`) -/

/-- The stopword set literal of `extract_search_keywords`, entries as
written in the source (set semantics: only membership matters). -/
def stopwords : List String :=
  ["은", "는", "이", "가", "을", "를", "의", "에", "에서", "로", "으로",
   "와", "과", "도", "만", "까지", "부터", "마다", "처럼", "같이",
   "어떤", "무엇", "어떻게", "왜", "언제", "어디", "누가", "뭐",
   "알려줘", "알려주세요", "설명해줘", "설명해주세요", "뭐야", "뭔가요",
   "하는", "되는", "있는", "없는", "해야", "할", "한", "된", "인",
   "그", "저", "이", "것", "수", "등", "및", "또는", "그리고",
   "대해", "관해", "관한", "대한", "어떻게", "어떤", "무슨"]

/-- Hangul syllable, i.e. the regex class `[가-힣]` (U+AC00..U+D7A3). -/
def isHangul (c : Char) : Bool :=
  0xAC00 ≤ c.toNat && c.toNat ≤ 0xD7A3

/-- ASCII whitespace as matched by `\s` / `str.split()` on the inputs in
scope. -/
def isSpace (c : Char) : Bool :=
  c = ' ' || c = '\t' || c = '\n' || c = '\r' || c = '\x0b' || c = '\x0c'

/-- Character class kept by `re.sub(r"[^0-9A-Za-z가-힣\s\-\./~→()%]", " ", query)`:
digits, ASCII letters, Hangul syllables, whitespace and the whitelisted
symbols. -/
def isKwKept (c : Char) : Bool :=
  c.isDigit || (c.isUpper || c.isLower) || isHangul c || isSpace c ||
    c = '-' || c = '.' || c = '/' || c = '~' || c = '→' || c = '(' || c = ')' || c = '%'

/-- Replace every non-whitelisted character by a space (the `re.sub` of
`extract_search_keywords`). -/
def kwClean (s : List Char) : List Char :=
  s.map fun c => if isKwKept c then c else ' '

/-- Python `str.split()`: split on whitespace runs, dropping empty pieces.
The source's extra `re.sub(r"\s{2,}", " ", ...)` / `.strip()` pass only
collapses whitespace runs and so does not change the token list produced
by `split()`. -/
def pySplit (s : List Char) : List (List Char) :=
  (s.foldr
    (fun c acc =>
      if isSpace c then [] :: acc
      else
        match acc with
        | [] => [[c]]
        | w :: ws => (c :: w) :: ws)
    []).filter (fun w => !w.isEmpty)

/-- The token list of the whitelisted-character-filtered query. -/
def kwTokens (q : String) : List String :=
  (pySplit (kwClean q.data)).map fun w => String.mk w

/-- Tokens surviving the stopword / length filter
(`[t for t in tokens if t not in stopwords and len(t) > 1]`). -/
def kwKeywords (q : String) : List String :=
  (kwTokens q).filter fun t => !decide (t ∈ stopwords) && decide (1 < t.length)

/-- The function `extract_search_keywords`: the keyword-extraction entry point. -/
def extractSearchKeywords (q : String) : String :=
  if (kwKeywords q).length < 2 then q else String.intercalate " " (kwKeywords q)

/-! ### Constraint Extractor (the auto-filter block of `search`) -/

/-- Whether the regex `20[0-3]\d` matches at the start of the character
list. -/
def yearAt : List Char → Bool
  | c1 :: c2 :: c3 :: c4 :: _ =>
      c1 = '2' && c2 = '0' && '0' ≤ c3 && c3 ≤ '3' && c4.isDigit
  | _ => false

/-- Integer value of the four-digit year starting the character list
(meaningful when `yearAt` holds). -/
def yearVal : List Char → Int
  | _ :: _ :: c3 :: c4 :: _ =>
      2000 + (c3.toNat - '0'.toNat) * 10 + (c4.toNat - '0'.toNat)
  | _ => 0

/-- Python `re.search` of the pattern `20[0-3]` then a digit: value of the
leftmost match. -/
def findYear : List Char → Option Int
  | [] => none
  | c :: rest => if yearAt (c :: rest) then some (yearVal (c :: rest)) else findYear rest

/-- Index of the last position `j ≥ 1` holding `'처'` in a character run
(the greedy backtracking point of `[가-힣]+처`). -/
def lastCheo (r : List Char) : Option Nat :=
  (List.range r.length).foldl
    (fun acc j => if 1 ≤ j && r.getD j ' ' = '처' then some j else acc) none

/-- Match of `[가-힣]+처` anchored at the start of the character list:
the maximal Hangul run must contain `'처'` at an index `≥ 1`, and the
greedy match extends through the last such `'처'`. -/
def deptMatchAt (s : List Char) : Option (List Char) :=
  let r := s.takeWhile isHangul
  match lastCheo r with
  | some j => some (r.take (j + 1))
  | none => none

/-- Python `re.search` of one-or-more Hangul followed by the department
suffix: leftmost match. -/
def findDept : List Char → Option String
  | [] => none
  | c :: rest =>
    match deptMatchAt (c :: rest) with
    | some m => some (String.mk m)
    | none => findDept rest

/-- The auto-filter block of `search`: write `filters["year"]` when a year
token is found and the key is absent, then `filters["dept"]` when the key
is absent and a department token is found. -/
def autoFilterYear (q : String) (f : Filters) : Filters :=
  match findYear q.data with
  | some y => if f.year = none then { f with year := some y } else f
  | none => f

/-- The department half of the auto-filter block: runs after the year
write, only when the `dept` key is absent. -/
def autoFilterDept (q : String) (f : Filters) : Filters :=
  match f.dept with
  | some _ => f
  | none =>
    match findDept q.data with
    | some d => { f with dept := some d }
    | none => f

/-- Both auto-filter writes in source order. -/
def autoFilter (q : String) (f : Filters) : Filters :=
  autoFilterDept q (autoFilterYear q f)

/-! ### Wide Retriever fetch count -/

/-- The over-fetch count `fetch_k = max(top_k * 5, 50)`. -/
def fetchK (topk : Nat) : Nat := max (topk * 5) 50

/-! ### Lexical Re-ranker (the boosting loop of `search`) -/

/-- Word character for the query-cleaning regex `re.sub(r"[^\w\s]", " ", query)`:
ASCII alphanumerics, underscore and Hangul syllables (the scripts the
corpus and queries use). -/
def isWordChar (c : Char) : Bool :=
  c.isDigit || c.isUpper || c.isLower || c = '_' || isHangul c

/-- The `clean_q` step: replace characters that are neither word characters nor
whitespace by a space. -/
def rerankClean (s : List Char) : List Char :=
  s.map fun c => if isWordChar c || isSpace c then c else ' '

/-- The `query_words` list: tokens of the cleaned query of length at least 2. -/
def queryWords (q : String) : List String :=
  ((pySplit (rerankClean q.data)).map fun w => String.mk w).filter
    fun w => decide (2 ≤ w.length)

/-- Python's substring test `needle in hay` on character lists. -/
def isSub (needle : List Char) : List Char → Bool
  | [] => needle.isEmpty
  | c :: t => needle.isPrefixOf (c :: t) || isSub needle t

/-- Python `word in full_text` for strings. -/
def containsSub (hay needle : String) : Bool :=
  isSub needle.data hay.data

/-- The comparison text `full_text = (title * 2) + " " + text`. -/
def fullText (d : Doc) : String :=
  d.title ++ d.title ++ " " ++ d.text

/-- The fixed signal-term list `bonus_keywords`. -/
def bonusKeywords : List String := ["개선", "적용", "검토", "결과", "표"]

/-- Adjacent pairs `(query_words[i], query_words[i+1])`. -/
def adjacentPairs (ws : List String) : List (String × String) :=
  ws.zip ws.tail

/-- The `match_score` accumulated for one document: per-word hits, phrase hits
(guarded by `len(query_words) >= 2`), and signal-term hits. -/
def matchScore (q : String) (d : Doc) : ℚ :=
  ((queryWords q).map fun w => if containsSub (fullText d) w then (1 : ℚ)/20 else 0).sum
  + (if 2 ≤ (queryWords q).length then
      ((adjacentPairs (queryWords q)).map fun p =>
        if containsSub (fullText d) (p.1 ++ " " ++ p.2) then (3 : ℚ)/10 else 0).sum
    else 0)
  + (bonusKeywords.map fun b => if containsSub (fullText d) b then (1 : ℚ)/20 else 0).sum

/-- Python `int()` applied to a rational: truncation toward zero. -/
def pyInt (x : ℚ) : Int :=
  if x < 0 then -(⌊-x⌋) else ⌊x⌋

/-- The in-place mutation of one candidate by the re-ranking loop:
`doc["score"] += match_score; doc["keyword_matches"] = int(match_score * 10)`. -/
def rerankDoc (q : String) (d : Doc) : Doc :=
  { d with score := d.score + matchScore q d, km := pyInt (matchScore q d * 10) }

/-- The whole re-ranking pass over the pool. -/
def rerank (q : String) (pool : List Doc) : List Doc :=
  pool.map (rerankDoc q)

/-! ### Diversity Selector (the quota block of `search`) -/

/-- Grouping key: `doc["metadata"].get("year", "Unknown")`. -/
def yearKey (d : Doc) : PyKey :=
  d.year.getD (PyKey.str "Unknown")

/-- The distinct year keys of the pool (the keys of `docs_by_year`). -/
def yearKeys (pool : List Doc) : List PyKey :=
  (pool.map yearKey).dedup

/-- One year group: the pool entries carrying this key, in pool order. -/
def yearGroup (y : PyKey) (pool : List Doc) : List Doc :=
  pool.filter fun d => yearKey d = y

/-- Python `<` restricted to homogeneous keys; the heterogeneous cases are
unreachable because `sortKeysDesc` raises on them first. Strings compare
lexicographically by code point. -/
def charsLt : List Char → List Char → Bool
  | [], [] => false
  | [], _ :: _ => true
  | _ :: _, [] => false
  | a :: as, b :: bs =>
      if a.toNat < b.toNat then true
      else if b.toNat < a.toNat then false
      else charsLt as bs

/-- Comparison of two homogeneous year keys. -/
def keyLt : PyKey → PyKey → Bool
  | .int a, .int b => a < b
  | .str a, .str b => charsLt a.data b.data
  | .int _, .str _ => false
  | .str _, .int _ => false

/-- Whether a key is a string. -/
def isStrKey : PyKey → Bool
  | .str _ => true
  | .int _ => false

/-- Generic stable insertion step: `tak d x` means `d` is placed before
`x`. -/
def insertTop {α : Type} (tak : α → α → Bool) (d : α) : List α → List α
  | [] => [d]
  | x :: xs => if tak d x then d :: x :: xs else x :: insertTop tak d xs

/-- Generic stable sort (extensionally, Python's stable `sort`). -/
def sortTop {α : Type} (tak : α → α → Bool) : List α → List α
  | [] => []
  | d :: ds => insertTop tak d (sortTop tak ds)

/-- Python `list.sort` keyed on score with `reverse=True`: stable descending
score order. -/
def sortScoreDesc (l : List Doc) : List Doc :=
  sortTop (fun d x => decide (x.score ≤ d.score)) l

/-- Python `sorted(keys, reverse=True)` over the year keys: raises `TypeError` when
the keys mix numbers and strings (Python cannot compare them), otherwise
sorts descending. -/
def sortKeysDesc (ks : List PyKey) : Except PyErr (List PyKey) :=
  if ks.any (fun k => !isStrKey k) && ks.any isStrKey then .error .typeErr
  else .ok (sortTop (fun a b => !keyLt a b) ks)

/-- Step 1 of the quota block: for each year (descending) the top 2 of the
score-sorted group, appended unconditionally. -/
def guaranteedList (ks : List PyKey) (pool : List Doc) : List Doc :=
  (ks.map fun y => (sortScoreDesc (yearGroup y pool)).take 2).flatten

/-- Step 2: walk the score-sorted pool, appending unselected documents
until the result reaches `top_k`; the length test happens at the top of
each iteration, as in the Python loop. -/
def fillLoop (acc : List Doc) (sel : List String) (rest : List Doc) (topk : Nat) :
    List Doc :=
  match rest with
  | [] => acc
  | d :: ds =>
    if topk ≤ acc.length then acc
    else if d.id ∈ sel then fillLoop acc sel ds topk
    else fillLoop (acc ++ [d]) (sel ++ [d.id]) ds topk

/-- The Diversity Selector: year grouping, per-year guaranteed top-2,
score-order fill to `top_k`, final score re-sort.  Raises when Python's
`sorted` would. -/
def diversitySelect (pool : List Doc) (topk : Nat) : Except PyErr (List Doc) :=
  match sortKeysDesc (yearKeys pool) with
  | .error e => .error e
  | .ok ks =>
    let g := guaranteedList ks pool
    let filled := fillLoop g (g.map Doc.id) (sortScoreDesc pool) topk
    .ok (sortScoreDesc filled)

/-! ### The full `search` pipeline -/

/-- External collaborators of `search`: the embedding client, the vector
store query (per namespace) and `describe_index_stats` namespace
discovery. -/
structure Env where
  embed : String → Except PyErr (List ℚ)
  vsQuery : List ℚ → Nat → String → Filters → Except PyErr (List Doc)
  statsNamespaces : Except PyErr (List String)

/-- The namespace list actually queried: the caller's list when non-empty,
otherwise the discovered namespaces (with `[""]` as fallback). -/
def resolveNamespaces (env : Env) (namespaces : List String) : List String :=
  if namespaces.isEmpty then
    match env.statsNamespaces with
    | .ok l => if l.isEmpty then [""] else l
    | .error _ => [""]
  else namespaces

/-- The wide-retrieval loop: query every namespace with `fetch_k`; a
per-namespace failure is swallowed and contributes no candidates. -/
def wideRetrieve (env : Env) (vec : List ℚ) (topk : Nat) (nss : List String)
    (f : Filters) : List Doc :=
  (nss.map fun n =>
    match env.vsQuery vec (fetchK topk) n f with
    | .ok ms => ms.map fun m => { m with ns := n }
    | .error _ => []).flatten

/-- The method `PineconeRAG.search`.  The second component is the final content of the
`filters` mapping: Python writes the auto-extracted keys into the
caller-supplied dict itself (creating a fresh one only when the argument
is `None`), so this component is what the caller's mapping holds after
`search` returns. -/
def search (env : Env) (q : String) (topk : Nat) (namespaces : List String)
    (filtersIn : Option Filters) (useKw : Bool) :
    Except PyErr (List Doc) × Filters :=
  match env.embed (if useKw then extractSearchKeywords q else q) with
  | .error e => (.error e, autoFilter q (filtersIn.getD {}))
  | .ok vec =>
    (diversitySelect
      (rerank q (wideRetrieve env vec topk (resolveNamespaces env namespaces)
        (autoFilter q (filtersIn.getD {})))) topk,
     autoFilter q (filtersIn.getD {}))

/-! ### Lemmas about the stable sort -/

theorem insertTop_perm {α : Type} (tak : α → α → Bool) (d : α) (l : List α) :
    (insertTop tak d l).Perm (d :: l) := by
  induction l with
  | nil => simp [insertTop]
  | cons x xs ih =>
    by_cases h : tak d x
    · simp [insertTop, h]
    · simp only [insertTop, h, Bool.false_eq_true, if_false]
      exact (ih.cons x).trans (List.Perm.swap d x xs)

theorem sortTop_perm {α : Type} (tak : α → α → Bool) (l : List α) :
    (sortTop tak l).Perm l := by
  induction l with
  | nil => simp [sortTop]
  | cons x xs ih => exact (insertTop_perm tak x (sortTop tak xs)).trans (ih.cons x)

theorem sortScoreDesc_perm (l : List Doc) : (sortScoreDesc l).Perm l :=
  sortTop_perm _ l

theorem mem_sortScoreDesc {a : Doc} {l : List Doc} : a ∈ sortScoreDesc l ↔ a ∈ l :=
  (sortScoreDesc_perm l).mem_iff

theorem length_sortScoreDesc (l : List Doc) : (sortScoreDesc l).length = l.length :=
  (sortScoreDesc_perm l).length_eq

/-! ### Lemmas about the fill loop -/

theorem mem_fillLoop_of_mem {a : Doc} (topk : Nat) :
    ∀ (rest acc : List Doc) (sel : List String), a ∈ acc →
      a ∈ fillLoop acc sel rest topk := by
  intro rest
  induction rest with
  | nil => intro acc sel h; simpa [fillLoop] using h
  | cons d ds ih =>
    intro acc sel h
    simp only [fillLoop]
    split
    · exact h
    · split
      · exact ih acc sel h
      · exact ih (acc ++ [d]) (sel ++ [d.id]) (List.mem_append_left _ h)

theorem fillLoop_length (topk : Nat) :
    ∀ (rest acc : List Doc) (sel : List String), (rest.map Doc.id).Nodup →
      (fillLoop acc sel rest topk).length =
        max acc.length
          (min topk (acc.length + (rest.filter fun d => !decide (d.id ∈ sel)).length)) := by
  intro rest
  induction rest with
  | nil =>
    intro acc sel _
    simp only [fillLoop, List.filter_nil, List.length_nil, Nat.add_zero]
    omega
  | cons d ds ih =>
    intro acc sel hnd
    simp only [List.map_cons, List.nodup_cons] at hnd
    obtain ⟨hd, hds⟩ := hnd
    simp only [fillLoop]
    by_cases hk : topk ≤ acc.length
    · rw [if_pos hk]
      have hmin : min topk (acc.length + (((d :: ds).filter
          fun e => !decide (e.id ∈ sel)).length)) ≤ acc.length :=
        le_trans (min_le_left _ _) hk
      omega
    · rw [if_neg hk]
      by_cases hmem : d.id ∈ sel
      · rw [if_pos hmem, ih acc sel hds]
        have hfil : (d :: ds).filter (fun e => !decide (e.id ∈ sel))
            = ds.filter fun e => !decide (e.id ∈ sel) := by
          rw [List.filter_cons]
          simp [hmem]
        rw [hfil]
      · rw [if_neg hmem, ih (acc ++ [d]) (sel ++ [d.id]) hds]
        have hfil1 : (d :: ds).filter (fun e => !decide (e.id ∈ sel))
            = d :: ds.filter fun e => !decide (e.id ∈ sel) := by
          rw [List.filter_cons]
          simp [hmem]
        have hfil2 : ds.filter (fun e => !decide (e.id ∈ sel ++ [d.id]))
            = ds.filter fun e => !decide (e.id ∈ sel) := by
          apply List.filter_congr
          intro e he
          have hne : e.id ≠ d.id := by
            intro hcontra
            exact hd (hcontra ▸ List.mem_map_of_mem Doc.id he)
          simp [List.mem_append, hne]
        rw [hfil1, hfil2]
        simp only [List.length_append, List.length_cons, List.length_nil]
        omega

/-! ### Counting lemmas -/

theorem sum_map_add_nat {α : Type} (l : List α) (f g : α → ℕ) :
    (l.map fun y => f y + g y).sum = (l.map f).sum + (l.map g).sum := by
  induction l with
  | nil => simp
  | cons y ys ih => simp [ih]; ring

theorem sum_indicator_nodup {α : Type} [DecidableEq α] {ks : List α} {a : α}
    (hn : ks.Nodup) (ha : a ∈ ks) :
    (ks.map fun y => if a = y then (1 : ℕ) else 0).sum = 1 := by
  induction ks with
  | nil => cases ha
  | cons k ks ih =>
    rw [List.nodup_cons] at hn
    rcases List.mem_cons.mp ha with rfl | hmem
    · have hz : (ks.map fun y => if a = y then (1 : ℕ) else 0).sum = 0 := by
        apply List.sum_eq_zero
        intro x hx
        rw [List.mem_map] at hx
        obtain ⟨y, hy, rfl⟩ := hx
        have : a ≠ y := fun h => hn.1 (h ▸ hy)
        simp [this]
      simp [hz]
    · have hk : a ≠ k := fun h => hn.1 (h ▸ hmem)
      simp [hk, ih hn.2 hmem]

theorem sum_group_lengths {ks : List PyKey} (hn : ks.Nodup) :
    ∀ pool : List Doc, (∀ d ∈ pool, yearKey d ∈ ks) →
      (ks.map fun y => (yearGroup y pool).length).sum = pool.length := by
  intro pool
  induction pool with
  | nil =>
    intro _
    simp [yearGroup]
  | cons d ds ih =>
    intro hall
    have h1 : (fun y => (yearGroup y (d :: ds)).length)
        = fun y => (yearGroup y ds).length + if yearKey d = y then 1 else 0 := by
      funext y
      simp only [yearGroup, List.filter_cons]
      by_cases h : yearKey d = y
      · simp [h]
      · simp [h]
    rw [h1, sum_map_add_nat, ih (fun e he => hall e (List.mem_cons_of_mem d he)),
      sum_indicator_nodup hn (hall d (List.mem_cons_self d ds))]
    simp

theorem isPrefixOf_of_append {a : List Char} :
    ∀ {b l : List Char}, (a ++ b).isPrefixOf l = true → a.isPrefixOf l = true := by
  induction a with
  | nil => intro b l _; cases l <;> rfl
  | cons c cs ih =>
    intro b l h
    cases l with
    | nil => simp [List.isPrefixOf] at h
    | cons x xs =>
      simp only [List.cons_append, List.isPrefixOf, Bool.and_eq_true] at h ⊢
      exact ⟨h.1, ih h.2⟩

theorem isSub_of_append {a b : List Char} :
    ∀ {h : List Char}, isSub (a ++ b) h = true → isSub a h = true := by
  intro h
  induction h with
  | nil =>
    simp only [isSub, List.isEmpty_iff, List.append_eq_nil]
    rintro ⟨rfl, rfl⟩
    rfl
  | cons c t ih =>
    simp only [isSub, Bool.or_eq_true]
    rintro (hp | hs)
    · exact Or.inl (isPrefixOf_of_append hp)
    · exact Or.inr (ih hs)

theorem containsSub_of_append {ft w1 w2 : String}
    (h : containsSub ft (w1 ++ w2) = true) : containsSub ft w1 = true := by
  simp only [containsSub] at h ⊢
  rw [String.data_append] at h
  exact isSub_of_append h

theorem sum_ite_count {α : Type} (c : ℚ) (p : α → Bool) (l : List α) :
    (l.map fun x => if p x then c else 0).sum = (l.countP p : ℚ) * c := by
  induction l with
  | nil => simp
  | cons x xs ih =>
    simp only [List.map_cons, List.sum_cons, List.countP_cons, ih]
    by_cases h : p x
    · simp [h]
      ring
    · simp [h]

/-! ### Counting form of the lexical boost (the spec's formula) -/

/-- Number of word-list entries (with multiplicity) found in the comparison
text. -/
def wordHits (q : String) (d : Doc) : ℕ :=
  (queryWords q).countP fun w => containsSub (fullText d) w

/-- Number of consecutive word-list pairs whose space-joined phrase occurs
in the comparison text. -/
def phraseHits (q : String) (d : Doc) : ℕ :=
  (adjacentPairs (queryWords q)).countP fun p =>
    containsSub (fullText d) (p.1 ++ " " ++ p.2)

/-- Number of fixed signal terms present in the comparison text. -/
def signalHits (d : Doc) : ℕ :=
  bonusKeywords.countP fun b => containsSub (fullText d) b

/-- The boost formula as the spec states it: 0.05 per word hit, 0.3 per
phrase hit, 0.05 per signal-term hit. -/
def specBoost (q : String) (d : Doc) : ℚ :=
  (wordHits q d : ℚ) * (1/20) + (phraseHits q d : ℚ) * (3/10) + (signalHits d : ℚ) * (1/20)

theorem adjacentPairs_eq_nil {ws : List String} (h : ws.length < 2) :
    adjacentPairs ws = [] := by
  match ws, h with
  | [], _ => rfl
  | [w], _ => rfl

theorem matchScore_eq_specBoost (q : String) (d : Doc) :
    matchScore q d = specBoost q d := by
  unfold matchScore specBoost wordHits phraseHits signalHits
  rw [sum_ite_count, sum_ite_count]
  by_cases h2 : 2 ≤ (queryWords q).length
  · rw [if_pos h2, sum_ite_count]
  · rw [if_neg h2, adjacentPairs_eq_nil (by omega), sum_ite_count]
    simp

theorem matchScore_nonneg (q : String) (d : Doc) : 0 ≤ matchScore q d := by
  rw [matchScore_eq_specBoost]
  unfold specBoost
  positivity

/-! ### Key-comparison lemmas -/

theorem charsLt_asymm : ∀ a b : List Char, charsLt a b = true → charsLt b a = false := by
  intro a
  induction a with
  | nil =>
    intro b h
    cases b with
    | nil => simp [charsLt] at h
    | cons y ys => simp [charsLt]
  | cons x xs ih =>
    intro b h
    cases b with
    | nil => simp [charsLt] at h
    | cons y ys =>
      simp only [charsLt] at h ⊢
      by_cases hxy : x.toNat < y.toNat
      · have hyx : ¬ y.toNat < x.toNat := by omega
        simp [hxy, hyx]
      · by_cases hyx : y.toNat < x.toNat
        · simp [hxy, hyx] at h
        · simp only [hxy, hyx, if_false]
          exact ih ys (by simpa [hxy, hyx] using h)

theorem keyLt_asymm_str {a b : PyKey} (ha : isStrKey a = true) (hb : isStrKey b = true)
    (h : keyLt a b = true) : keyLt b a = false := by
  cases a with
  | int n => simp [isStrKey] at ha
  | str s =>
    cases b with
    | int m => simp [isStrKey] at hb
    | str t => exact charsLt_asymm s.data t.data h

/-! ### Sortedness (descending chains) of the stable sort -/

theorem chain_insertTop {α : Type} (R : α → α → Prop) (tak : α → α → Bool) (x : α)
    (h1 : ∀ y, tak x y = true → R x y) :
    ∀ l : List α, List.Chain' R l → (∀ y ∈ l, tak x y = false → R y x) →
      List.Chain' R (insertTop tak x l) := by
  intro l
  induction l with
  | nil =>
    intro _ _
    exact List.chain'_singleton x
  | cons y ys ih =>
    intro hch h2
    simp only [insertTop]
    by_cases ht : tak x y
    · rw [if_pos ht, List.chain'_cons]
      exact ⟨h1 y ht, hch⟩
    · rw [if_neg ht]
      have hty : tak x y = false := by revert ht; cases tak x y <;> simp
      have hRyx : R y x := h2 y (List.mem_cons_self y ys) hty
      cases ys with
      | nil =>
        simp only [insertTop]
        rw [List.chain'_cons]
        exact ⟨hRyx, List.chain'_singleton x⟩
      | cons z zs =>
        have hyz : R y z := (List.chain'_cons.mp hch).1
        have hch' : List.Chain' R (z :: zs) := (List.chain'_cons.mp hch).2
        have hrec : List.Chain' R (insertTop tak x (z :: zs)) :=
          ih hch' fun w hw htw => h2 w (List.mem_cons_of_mem y hw) htw
        simp only [insertTop] at hrec ⊢
        by_cases htz : tak x z
        · rw [if_pos htz] at hrec ⊢
          rw [List.chain'_cons]
          exact ⟨hRyx, hrec⟩
        · rw [if_neg htz] at hrec ⊢
          rw [List.chain'_cons]
          exact ⟨hyz, hrec⟩

theorem chain_sortTop {α : Type} (R : α → α → Prop) (tak : α → α → Bool)
    (hTak : ∀ a b, tak a b = true → R a b) :
    ∀ l : List α, (∀ a ∈ l, ∀ b ∈ l, tak a b = false → R b a) →
      List.Chain' R (sortTop tak l) := by
  intro l
  induction l with
  | nil =>
    intro _
    exact List.chain'_nil
  | cons x xs ih =>
    intro hmain
    simp only [sortTop]
    apply chain_insertTop R tak x (fun y => hTak x y)
    · exact ih fun a ha b hb => hmain a (List.mem_cons_of_mem x ha) b (List.mem_cons_of_mem x hb)
    · intro y hy hty
      exact hmain x (List.mem_cons_self x xs) y
        (List.mem_cons_of_mem x ((sortTop_perm tak xs).mem_iff.mp hy)) hty

/-! ### Structure of a successful Diversity Selector run -/

/-- The guaranteed-inclusion count: sum over year groups of `min 2 |group|`. -/
def guaranteedCount (pool : List Doc) : ℕ :=
  ((yearKeys pool).map fun y => min 2 (yearGroup y pool).length).sum

theorem sortKeysDesc_ok {l ks : List PyKey} (h : sortKeysDesc l = .ok ks) :
    ks = sortTop (fun a b => !keyLt a b) l := by
  unfold sortKeysDesc at h
  split at h
  · cases h
  · cases h
    rfl

theorem diversitySelect_ok {pool : List Doc} {topk : Nat} {out : List Doc}
    (hout : diversitySelect pool topk = .ok out) :
    ∃ ks, sortKeysDesc (yearKeys pool) = .ok ks ∧
      out = sortScoreDesc (fillLoop (guaranteedList ks pool)
        ((guaranteedList ks pool).map Doc.id) (sortScoreDesc pool) topk) := by
  unfold diversitySelect at hout
  cases h : sortKeysDesc (yearKeys pool) with
  | error e => rw [h] at hout; cases hout
  | ok ks =>
    rw [h] at hout
    cases hout
    exact ⟨ks, rfl, rfl⟩

theorem mem_pool_of_mem_chunk {y : PyKey} {pool : List Doc} {d : Doc}
    (hd : d ∈ (sortScoreDesc (yearGroup y pool)).take 2) :
    d ∈ pool ∧ yearKey d = y := by
  have h1 : d ∈ sortScoreDesc (yearGroup y pool) := List.mem_of_mem_take hd
  have h2 : d ∈ yearGroup y pool := mem_sortScoreDesc.mp h1
  unfold yearGroup at h2
  rw [List.mem_filter] at h2
  exact ⟨h2.1, by simpa using h2.2⟩

theorem mem_out_of_mem_chunk {pool : List Doc} {topk : Nat} {out : List Doc}
    (hout : diversitySelect pool topk = .ok out) {y : PyKey} (hy : y ∈ pool.map yearKey)
    {d : Doc} (hd : d ∈ (sortScoreDesc (yearGroup y pool)).take 2) : d ∈ out := by
  obtain ⟨ks, hks, rfl⟩ := diversitySelect_ok hout
  have hyk : y ∈ yearKeys pool := List.mem_dedup.mpr hy
  have hyks : y ∈ ks := by
    rw [sortKeysDesc_ok hks]
    exact (sortTop_perm _ _).mem_iff.mpr hyk
  have hg : d ∈ guaranteedList ks pool := by
    unfold guaranteedList
    rw [List.mem_flatten]
    exact ⟨(sortScoreDesc (yearGroup y pool)).take 2,
      List.mem_map_of_mem _ hyks, hd⟩
  exact mem_sortScoreDesc.mpr (mem_fillLoop_of_mem topk _ _ _ hg)

theorem guaranteedList_length (ks : List PyKey) (pool : List Doc) :
    (guaranteedList ks pool).length
      = (ks.map fun y => min 2 (yearGroup y pool).length).sum := by
  unfold guaranteedList
  rw [List.length_flatten, List.map_map]
  congr 1
  apply List.map_congr_left
  intro y _
  simp [List.length_take, length_sortScoreDesc]

theorem filter_not_length {α : Type} (p : α → Bool) (l : List α) :
    (l.filter fun a => !p a).length = l.length - (l.filter p).length := by
  induction l with
  | nil => rfl
  | cons a l ih =>
    have hle : (l.filter p).length ≤ l.length := List.length_filter_le p l
    rw [List.filter_cons, List.filter_cons]
    cases h : p a <;> (simp [ih]; try omega)

theorem chunk_nodup {y : PyKey} {pool : List Doc} (hp : pool.Nodup) :
    ((sortScoreDesc (yearGroup y pool)).take 2).Nodup :=
  List.Nodup.sublist (List.take_sublist 2 _)
    ((sortScoreDesc_perm _).nodup_iff.mpr (hp.filter _))

theorem guaranteedList_nodup {ks : List PyKey} {pool : List Doc}
    (hks : ks.Nodup) (hp : pool.Nodup) : (guaranteedList ks pool).Nodup := by
  unfold guaranteedList
  rw [List.nodup_flatten]
  constructor
  · intro l hl
    rw [List.mem_map] at hl
    obtain ⟨y, _, rfl⟩ := hl
    exact chunk_nodup hp
  · rw [List.pairwise_map]
    refine List.Pairwise.imp ?_ hks
    intro a b hab d hda hdb
    exact hab (((mem_pool_of_mem_chunk hda).2).symm.trans (mem_pool_of_mem_chunk hdb).2)

theorem guaranteedList_subset {ks : List PyKey} {pool : List Doc} :
    ∀ d ∈ guaranteedList ks pool, d ∈ pool := by
  intro d hd
  unfold guaranteedList at hd
  rw [List.mem_flatten] at hd
  obtain ⟨l, hl, hdl⟩ := hd
  rw [List.mem_map] at hl
  obtain ⟨y, _, rfl⟩ := hl
  exact (mem_pool_of_mem_chunk hdl).1

theorem guaranteedList_count {ks : List PyKey} {pool : List Doc}
    (hkseq : ks = sortTop (fun a b => !keyLt a b) (yearKeys pool)) :
    (guaranteedList ks pool).length = guaranteedCount pool := by
  rw [guaranteedList_length, hkseq]
  exact ((sortTop_perm _ _).map fun y => min 2 (yearGroup y pool).length).sum_eq

theorem diversity_length {pool : List Doc} {topk : Nat} {out : List Doc}
    (hout : diversitySelect pool topk = .ok out)
    (hid : (pool.map Doc.id).Nodup)
    (hlen : max topk (guaranteedCount pool) ≤ pool.length) :
    out.length = max topk (guaranteedCount pool) := by
  obtain ⟨ks, hks, rfl⟩ := diversitySelect_ok hout
  have hkseq := sortKeysDesc_ok hks
  have hpool : pool.Nodup := List.Nodup.of_map _ hid
  have hksnd : ks.Nodup := by
    rw [hkseq]
    exact (sortTop_perm _ _).nodup_iff.mpr (List.nodup_dedup _)
  set g := guaranteedList ks pool with hg
  have hGnodup : g.Nodup := guaranteedList_nodup hksnd hpool
  have hGsub : ∀ d ∈ g, d ∈ pool := guaranteedList_subset
  have hfilperm : (pool.filter fun d => decide (d ∈ g)).Perm g := by
    refine (List.perm_ext_iff_of_nodup (hpool.filter _) hGnodup).mpr ?_
    intro a
    rw [List.mem_filter]
    constructor
    · intro h
      exact of_decide_eq_true h.2
    · intro h
      exact ⟨hGsub a h, decide_eq_true h⟩
  have hglen_le : g.length ≤ pool.length := by
    rw [← hfilperm.length_eq]
    exact List.length_filter_le _ _
  have hfil_id : (pool.filter fun d => decide (d.id ∈ g.map Doc.id))
      = pool.filter fun d => decide (d ∈ g) := by
    apply List.filter_congr
    intro d hd
    simp only [decide_eq_decide]
    constructor
    · intro hmem
      rw [List.mem_map] at hmem
      obtain ⟨e, he, heid⟩ := hmem
      have : e = d := List.inj_on_of_nodup_map hid (hGsub e he) hd heid
      exact this ▸ he
    · intro h
      exact List.mem_map_of_mem _ h
  have hrestnd : ((sortScoreDesc pool).map Doc.id).Nodup :=
    ((sortScoreDesc_perm pool).map Doc.id).nodup_iff.mpr hid
  rw [length_sortScoreDesc, fillLoop_length topk _ _ _ hrestnd]
  have hcnt : ((sortScoreDesc pool).filter fun d => !decide (d.id ∈ g.map Doc.id)).length
      = pool.length - g.length := by
    rw [← List.countP_eq_length_filter, (sortScoreDesc_perm pool).countP_eq,
      List.countP_eq_length_filter, filter_not_length, hfil_id, hfilperm.length_eq]
  rw [hcnt]
  have hgc : g.length = guaranteedCount pool := guaranteedList_count hkseq
  omega

/-! ### String-key pools: the Diversity Selector completes -/

theorem yearKeys_str {pool : List Doc}
    (h : ∀ d ∈ pool, d.year.all isStrKey = true) :
    ∀ y ∈ yearKeys pool, isStrKey y = true := by
  intro y hy
  unfold yearKeys at hy
  rw [List.mem_dedup, List.mem_map] at hy
  obtain ⟨d, hd, rfl⟩ := hy
  have hda := h d hd
  unfold yearKey
  cases hyr : d.year with
  | none => rfl
  | some k =>
    rw [hyr] at hda
    simpa using hda

theorem sortKeysDesc_ok_of_str {l : List PyKey} (h : ∀ y ∈ l, isStrKey y = true) :
    sortKeysDesc l = .ok (sortTop (fun a b => !keyLt a b) l) := by
  unfold sortKeysDesc
  rw [if_neg]
  intro hcontra
  rw [Bool.and_eq_true, List.any_eq_true, List.any_eq_true] at hcontra
  obtain ⟨⟨k, hk, hks⟩, _⟩ := hcontra
  rw [h k hk] at hks
  cases hks

theorem keys_chain_of_str {l ks : List PyKey} (hstr : ∀ y ∈ l, isStrKey y = true)
    (hks : sortKeysDesc l = .ok ks) :
    List.Chain' (fun a b => keyLt a b = false) ks := by
  rw [sortKeysDesc_ok hks]
  apply chain_sortTop _ _ (fun a b h => by simpa using h)
  intro a ha b hb htab
  have hab : keyLt a b = true := by
    revert htab
    cases keyLt a b <;> simp
  exact keyLt_asymm_str (hstr a ha) (hstr b hb) hab

/-! ### Bounds on the lexical boost -/

theorem two_le_of_pairs_mem {ws : List String} {p : String × String}
    (hp : p ∈ adjacentPairs ws) : 2 ≤ ws.length := by
  match ws with
  | [] => cases hp
  | [w] => cases hp
  | a :: b :: t => simp [Nat.le_add_left]

theorem rerank_nondecreasing (q : String) (pool : List Doc) :
    List.Forall₂ (fun d d' => d.score ≤ d'.score ∧ d'.id = d.id) pool (rerank q pool) := by
  induction pool with
  | nil => exact List.Forall₂.nil
  | cons d ds ih =>
    refine List.Forall₂.cons ⟨?_, rfl⟩ ih
    have := matchScore_nonneg q d
    simp only [rerankDoc]
    linarith

theorem matchScore_ge_of_hits {q : String} {A : Doc}
    (hA : ∀ w ∈ queryWords q, containsSub (fullText A) w = true)
    (hph : ∃ p ∈ adjacentPairs (queryWords q),
      containsSub (fullText A) (p.1 ++ " " ++ p.2) = true) :
    (2 : ℚ)/5 ≤ matchScore q A := by
  obtain ⟨p, hpmem, hpsub⟩ := hph
  have hlen : 2 ≤ (queryWords q).length := two_le_of_pairs_mem hpmem
  have hword : wordHits q A = (queryWords q).length :=
    List.countP_eq_length.mpr fun w hw => hA w hw
  have hphr : 1 ≤ phraseHits q A := by
    unfold phraseHits
    rw [Nat.succ_le_iff, List.countP_pos_iff]
    exact ⟨p, hpmem, hpsub⟩
  rw [matchScore_eq_specBoost]
  unfold specBoost
  have h1 : (2 : ℚ) ≤ (wordHits q A : ℚ) := by
    rw [hword]
    exact_mod_cast hlen
  have h2 : (1 : ℚ) ≤ (phraseHits q A : ℚ) := by exact_mod_cast hphr
  have h3 : (0 : ℚ) ≤ (signalHits A : ℚ) := by positivity
  nlinarith

theorem matchScore_le_of_no_hits {q : String} {B : Doc}
    (hB : ∀ w ∈ queryWords q, containsSub (fullText B) w = false) :
    matchScore q B ≤ (1 : ℚ)/4 := by
  have hword : wordHits q B = 0 := by
    unfold wordHits
    rw [List.countP_eq_zero]
    intro w hw
    rw [hB w hw]
    simp
  have hphr : phraseHits q B = 0 := by
    unfold phraseHits
    rw [List.countP_eq_zero]
    intro p hp
    have hp1 : p.1 ∈ queryWords q := (List.of_mem_zip hp).1
    cases hc : containsSub (fullText B) (p.1 ++ " " ++ p.2)
    · simp
    · have := containsSub_of_append (containsSub_of_append hc)
      rw [hB p.1 hp1] at this
      cases this
  have hsig : signalHits B ≤ 5 := List.countP_le_length _
  rw [matchScore_eq_specBoost]
  unfold specBoost
  rw [hword, hphr]
  have : (signalHits B : ℚ) ≤ 5 := by exact_mod_cast hsig
  nlinarith

/-! ### Field-preservation lemmas for the auto-filter -/

theorem autoFilterYear_dept (q : String) (f : Filters) :
    (autoFilterYear q f).dept = f.dept := by
  unfold autoFilterYear
  cases findYear q.data with
  | none => rfl
  | some y =>
    by_cases h : f.year = none
    · simp [h]
    · simp [h]

theorem autoFilterYear_year_some (q : String) (f : Filters) {y : Int}
    (h : f.year = some y) : (autoFilterYear q f).year = some y := by
  unfold autoFilterYear
  cases findYear q.data with
  | none => exact h
  | some z => simp [h]

theorem autoFilterYear_year_write (q : String) (f : Filters) {y : Int}
    (hf : f.year = none) (hfind : findYear q.data = some y) :
    (autoFilterYear q f).year = some y := by
  unfold autoFilterYear
  rw [hfind]
  simp [hf]

theorem autoFilterDept_year (q : String) (f : Filters) :
    (autoFilterDept q f).year = f.year := by
  unfold autoFilterDept
  cases hd : f.dept
  · cases hfd : findDept q.data <;> rfl
  · rfl

theorem autoFilterDept_dept_some (q : String) (f : Filters) {d : String}
    (h : f.dept = some d) : (autoFilterDept q f).dept = some d := by
  unfold autoFilterDept
  rw [h]
  simpa using h

/-! ### The claims -/

/-- The duplicate-id pool: the same record (id "a", year 2024) returned
from two partitions with slightly different scores. -/
def dupIdPool : List Doc :=
  [{ id := "a", score := 1, ns := "p1", year := some (.int 2024) },
   { id := "a", score := 0, ns := "p2", year := some (.int 2024) }]

/-- C1: the claim says the Diversity Selector never emits the same id
twice for any input pool, including pools in which two entries carry the
same id.  The code violates this: the guaranteed-inclusion step appends
each year group's top 2 without consulting `selected_ids`, so a pool with
two same-id entries in one year group yields a result carrying id "a"
twice. -/
theorem c1_diversity_duplicate_id :
    (diversitySelect dupIdPool 5).map (List.map Doc.id) = .ok ["a", "a"]
    ∧ ¬ (["a", "a"] : List String).Nodup :=
  ⟨by rfl, by decide⟩

/-- A pool mixing a numeric year with a missing year. -/
def mixedYearPool : List Doc :=
  [{ id := "a", score := 1, year := some (.int 2024) },
   { id := "b", score := 0 }]

/-- C2 counterexample: on a pool where one document has a numeric year and
another lacks the key (grouped under "Unknown"), the group-key sort
compares an `int` with a `str` and raises `TypeError`, so the Diversity
Selector does not complete without error. -/
theorem c2_mixed_year_typeerror :
    diversitySelect mixedYearPool 3 = .error .typeErr := by rfl

/-- C2 amended: when every year value present in the metadata is a string,
the Diversity Selector completes without error, and the group keys are
processed in descending order of ordinary (string) comparison, the
"Unknown" group placed exactly where that comparison puts it.  (With a
numeric year value alongside a missing one, the key sort raises
`TypeError` — see the counterexample.) -/
theorem c2_string_year_completes (pool : List Doc) (topk : Nat)
    (hstr : ∀ d ∈ pool, d.year.all isStrKey = true) :
    (∃ out, diversitySelect pool topk = .ok out)
    ∧ ∀ ks, sortKeysDesc (yearKeys pool) = .ok ks →
        List.Chain' (fun a b => keyLt a b = false) ks := by
  have hstr' := yearKeys_str hstr
  constructor
  · unfold diversitySelect
    rw [sortKeysDesc_ok_of_str hstr']
    exact ⟨_, rfl⟩
  · intro ks hks
    exact keys_chain_of_str hstr' hks

/-- A pool with one string year and one missing year. -/
def strYearPool : List Doc :=
  [{ id := "a", score := 1, year := some (.str "2024") },
   { id := "b", score := 0 }]

/-- C2 witness: the amended theorem applied to a concrete mixed
string/missing-year pool. -/
theorem c2_string_year_completes_witness :
    (∃ out, diversitySelect strYearPool 3 = .ok out)
    ∧ ∀ ks, sortKeysDesc (yearKeys strYearPool) = .ok ks →
        List.Chain' (fun a b => keyLt a b = false) ks :=
  c2_string_year_completes strYearPool 3 (by decide)

/-- C3: whenever the Diversity Selector returns a result, (a) for each
distinct year key present in the pool the result contains the first
`min 2 |group|` documents of that group's stable score-descending sort,
and (b) if the pool's ids are pairwise distinct and the pool holds at
least `max top_k guaranteed_count` documents, the result length is exactly
`max top_k guaranteed_count`, where `guaranteed_count` sums
`min 2 |group|` over the year groups. -/
theorem c3_diversity_quota (pool : List Doc) (topk : Nat) (out : List Doc)
    (hout : diversitySelect pool topk = .ok out) :
    (∀ y ∈ pool.map yearKey, ∀ d ∈ (sortScoreDesc (yearGroup y pool)).take 2, d ∈ out)
    ∧ ((pool.map Doc.id).Nodup → max topk (guaranteedCount pool) ≤ pool.length →
        out.length = max topk (guaranteedCount pool)) :=
  ⟨fun _ hy _ hd => mem_out_of_mem_chunk hout hy hd,
   fun hid hlen => diversity_length hout hid hlen⟩

/-- Five distinct years, two candidates each, distinct ids, descending
scores. -/
def quotaPool : List Doc :=
  [{ id := "a", score := 20, year := some (.int 2024) },
   { id := "b", score := 19, year := some (.int 2024) },
   { id := "c", score := 18, year := some (.int 2023) },
   { id := "d", score := 17, year := some (.int 2023) },
   { id := "e", score := 16, year := some (.int 2022) },
   { id := "f", score := 15, year := some (.int 2022) },
   { id := "g", score := 14, year := some (.int 2021) },
   { id := "h", score := 13, year := some (.int 2021) },
   { id := "i", score := 12, year := some (.int 2020) },
   { id := "j", score := 11, year := some (.int 2020) }]

/-- C3 witness: with 5 distinct years of ≥ 2 candidates and `top_k = 3`
the result has length 10 = max(3, 5·2) and contains each year group's
top 2. -/
theorem c3_diversity_quota_witness :
    ∃ out, diversitySelect quotaPool 3 = .ok out ∧ out.length = 10
      ∧ ∀ y ∈ quotaPool.map yearKey,
          ∀ d ∈ (sortScoreDesc (yearGroup y quotaPool)).take 2, d ∈ out := by
  obtain ⟨out, hout⟩ : ∃ out, diversitySelect quotaPool 3 = .ok out := ⟨_, rfl⟩
  obtain ⟨hmem, hlen⟩ := c3_diversity_quota quotaPool 3 out hout
  have h10 : max 3 (guaranteedCount quotaPool) = 10 := by decide
  exact ⟨out, hout, h10 ▸ hlen (by decide) (by decide), hmem⟩

/-- C4: the re-ranker never decreases a score and never removes a
candidate (the output is pointwise related to the input, same length, same
ids, scores not decreased), and it is monotone in term overlap: a document
whose comparison text contains every query word and at least one adjacent
pair phrase ends strictly above an equally-scored document containing no
query word. -/
theorem c4_rerank_monotone (q : String) (pool : List Doc) (A B : Doc)
    (hA : ∀ w ∈ queryWords q, containsSub (fullText A) w = true)
    (hph : ∃ p ∈ adjacentPairs (queryWords q),
      containsSub (fullText A) (p.1 ++ " " ++ p.2) = true)
    (hB : ∀ w ∈ queryWords q, containsSub (fullText B) w = false)
    (hs : A.score = B.score) :
    List.Forall₂ (fun d d' => d.score ≤ d'.score ∧ d'.id = d.id) pool (rerank q pool)
    ∧ (rerankDoc q B).score < (rerankDoc q A).score := by
  refine ⟨rerank_nondecreasing q pool, ?_⟩
  have h1 := matchScore_ge_of_hits hA hph
  have h2 := matchScore_le_of_no_hits hB
  show B.score + matchScore q B < A.score + matchScore q A
  rw [hs]
  linarith

/-- Document containing both query words of "ab cd" and the phrase. -/
def hitDoc : Doc := { id := "A", score := 0, text := "ab cd" }

/-- Document containing no query word of "ab cd". -/
def missDoc : Doc := { id := "B", score := 0, text := "zz" }

/-- C4 witness: the theorem at the concrete query "ab cd". -/
theorem c4_rerank_monotone_witness :
    List.Forall₂ (fun d d' => d.score ≤ d'.score ∧ d'.id = d.id)
      [hitDoc, missDoc] (rerank "ab cd" [hitDoc, missDoc])
    ∧ (rerankDoc "ab cd" missDoc).score < (rerankDoc "ab cd" hitDoc).score :=
  c4_rerank_monotone "ab cd" [hitDoc, missDoc] hitDoc missDoc
    (by decide) (by decide) (by decide) rfl

/-- C5: the boost added by the re-ranker is exactly 0.05 (= 1/20) per
word-list entry (with multiplicity) found in the comparison text, plus 0.3
(= 3/10) per consecutive pair found space-joined, plus 0.05 per fixed
signal term present, and `keyword_matches` is set to `int(boost * 10)`. -/
theorem c5_rerank_formula (q : String) (pool : List Doc) :
    rerank q pool = pool.map fun d =>
      { d with score := d.score + specBoost q d, km := pyInt (specBoost q d * 10) } := by
  unfold rerank
  apply List.map_congr_left
  intro d _
  unfold rerankDoc
  rw [matchScore_eq_specBoost]

/-- An environment whose embedding client raises. -/
def failEnv : Env :=
  { embed := fun _ => .error (.embedErr "boom"),
    vsQuery := fun _ _ _ _ => .ok [],
    statsNamespaces := .ok [] }

/-- C6: if the embedding client raises while embedding the (possibly
keyword-extracted) query, `search` propagates exactly that error and
returns no (empty or partial) result list; the pipeline calls the client
once, with no retry. -/
theorem c6_embed_failure_fatal (env : Env) (q : String) (topk : Nat)
    (namespaces : List String) (filtersIn : Option Filters) (useKw : Bool)
    (e : PyErr)
    (hembed : env.embed (if useKw then extractSearchKeywords q else q) = .error e) :
    (search env q topk namespaces filtersIn useKw).1 = .error e
    ∧ ∀ l, (search env q topk namespaces filtersIn useKw).1 ≠ .ok l := by
  unfold search
  rw [hembed]
  exact ⟨rfl, fun l h => Except.noConfusion h⟩

/-- C6 witness: a concrete environment whose embedding client raises. -/
theorem c6_embed_failure_fatal_witness :
    (search failEnv "질의" 10 [] none true).1 = .error (.embedErr "boom")
    ∧ ∀ l, (search failEnv "질의" 10 [] none true).1 ≠ .ok l :=
  c6_embed_failure_fatal failEnv "질의" 10 [] none true (.embedErr "boom") rfl

/-- C7: the constraint extractor never changes a filter key already
present in its input: a caller-supplied `year` survives unchanged even
when the query contains a year token, and likewise `dept`. -/
theorem c7_filters_not_overwritten (q : String) (f : Filters) :
    (∀ y, f.year = some y → (autoFilter q f).year = some y)
    ∧ (∀ d, f.dept = some d → (autoFilter q f).dept = some d) := by
  constructor
  · intro y hy
    unfold autoFilter
    rw [autoFilterDept_year]
    exact autoFilterYear_year_some q f hy
  · intro d hd
    unfold autoFilter
    apply autoFilterDept_dept_some
    rw [autoFilterYear_dept]
    exact hd

/-- C7 witness: a query containing both a year token and a department
token does not overwrite caller-supplied values. -/
theorem c7_filters_not_overwritten_witness :
    (autoFilter "2024년 설계처 기준" { year := some 1999, dept := some "도로처" }).year
      = some 1999
    ∧ (autoFilter "2024년 설계처 기준" { year := some 1999, dept := some "도로처" }).dept
      = some "도로처" :=
  ⟨(c7_filters_not_overwritten "2024년 설계처 기준"
      { year := some 1999, dept := some "도로처" }).1 1999 rfl,
   (c7_filters_not_overwritten "2024년 설계처 기준"
      { year := some 1999, dept := some "도로처" }).2 "도로처" rfl⟩

/-- C8: if fewer than 2 tokens survive filtering, the extractor returns
the original query verbatim; otherwise it returns the surviving tokens
space-joined, and every surviving token is a token of the
whitelisted-character-filtered input, is not a stopword, and has length at
least 2. -/
theorem c8_keyword_extractor (q : String) :
    ((kwKeywords q).length < 2 → extractSearchKeywords q = q)
    ∧ (2 ≤ (kwKeywords q).length →
        extractSearchKeywords q = String.intercalate " " (kwKeywords q)
        ∧ ∀ t ∈ kwKeywords q, t ∈ kwTokens q ∧ t ∉ stopwords ∧ 2 ≤ t.length) := by
  constructor
  · intro h
    unfold extractSearchKeywords
    rw [if_pos h]
  · intro h
    refine ⟨?_, ?_⟩
    · unfold extractSearchKeywords
      rw [if_neg (by omega)]
    · intro t ht
      unfold kwKeywords at ht
      rw [List.mem_filter, Bool.and_eq_true] at ht
      obtain ⟨h1, h2, h3⟩ := ht
      refine ⟨h1, ?_, ?_⟩
      · simpa using h2
      · have : 1 < t.length := by simpa using h3
        omega

/-- C8 witness: one query on each branch.  In "점밀도 기준은 무엇" the
stopword "무엇" is dropped and two tokens survive; "왜" over-filters to
nothing and is returned verbatim. -/
theorem c8_keyword_extractor_witness :
    extractSearchKeywords "점밀도 기준은 무엇" = "점밀도 기준은"
    ∧ extractSearchKeywords "왜" = "왜" := by
  constructor
  · have h := (c8_keyword_extractor "점밀도 기준은 무엇").2 (by decide)
    rw [h.1]
    rfl
  · exact (c8_keyword_extractor "왜").1 (by decide)

/-- C9: the per-partition fetch count is `max(top_k * 5, 50)` for every
`top_k` in [1, 100]; in particular 50 at `top_k = 10` and 100 at
`top_k = 20`. -/
theorem c9_fetch_k :
    (∀ k, 1 ≤ k → k ≤ 100 → fetchK k = max (k * 5) 50)
    ∧ fetchK 10 = 50 ∧ fetchK 20 = 100 :=
  ⟨fun _ _ _ => rfl, rfl, rfl⟩

/-- C9 witness: the bounded statement applied at `top_k = 7`. -/
theorem c9_fetch_k_witness : fetchK 7 = max (7 * 5) 50 :=
  c9_fetch_k.1 7 (by decide) (by decide)

/-- C10: the auto-extracted constraints are written into the caller's own
mapping: when `search` is called with a non-`None` filters mapping, the
mapping the caller holds afterwards (the second component, modelling the
mutated argument) is exactly the auto-filtered version of what it passed —
in particular a missing `year` key appears in the caller's mapping when
the query holds a year token; only a `None` argument makes `search` build
a fresh empty mapping. -/
theorem c10_filters_mutated_in_place (env : Env) (q : String) (topk : Nat)
    (namespaces : List String) (useKw : Bool) (f0 : Filters) :
    (search env q topk namespaces (some f0) useKw).2 = autoFilter q f0
    ∧ (search env q topk namespaces none useKw).2 = autoFilter q {}
    ∧ (∀ y, f0.year = none → findYear q.data = some y →
        (search env q topk namespaces (some f0) useKw).2.year = some y) := by
  have hpost : (search env q topk namespaces (some f0) useKw).2 = autoFilter q f0 := by
    unfold search
    cases env.embed (if useKw then extractSearchKeywords q else q) <;> rfl
  have hnone : (search env q topk namespaces none useKw).2 = autoFilter q {} := by
    unfold search
    cases env.embed (if useKw then extractSearchKeywords q else q) <;> rfl
  refine ⟨hpost, hnone, ?_⟩
  intro y hy hfind
  rw [hpost]
  unfold autoFilter
  rw [autoFilterDept_year]
  exact autoFilterYear_year_write q f0 hy hfind

/-- C10 witness: a caller-supplied mapping without a `year` key holds the
auto-extracted year after `search` returns. -/
theorem c10_filters_mutated_in_place_witness :
    (search failEnv "2024년 기준" 10 [] (some {}) true).2.year = some 2024 :=
  (c10_filters_mutated_in_place failEnv "2024년 기준" 10 [] true {}).2.2 2024 rfl rfl
